import Mathlib

/-!
Verification of the semantic-memory retrieval engine.

The development shallowly embeds the program's core algorithms:

* the hybrid scoring formula (`utils/hybrid-search.js`:
  `calculateRecencyScore`, `calculateHybridScore`, mirrored by the SQL
  functions `calculate_recency_score` / `calculate_hybrid_score` in
  `db/schema.sql`) over the real numbers;
* the search post-processing pipeline (`db/queries.js`,
  `MemoryQueries.search`): WHERE-clause candidate filtering, ORDER BY
  hybrid score descending, LIMIT, then the JavaScript-side minimum-score
  filter;
* the relation queries (`RelationQueries.getByMemory`) and the
  `get_related` tool handler;
* the recall merge/deduplication loop (`tools/recall_context.js`);
* the importance lifecycle updates (`MemoryQueries.reinforce`,
  `MemoryQueries.decay`);
* input validation (`utils/security.js`: `sanitizeContent`,
  `validateLimit`), embedding dimension normalization
  (`embeddings/generator.js`: `normalizeEmbeddingDimension`) and record
  creation defaults (`MemoryQueries.create`);
* the parameter-placeholder construction of
  `MemoryQueries.batchUpdateAccess`.

Timestamps, scores and strengths that only ever get compared are modelled
as rationals so that the operational definitions stay executable; the
scoring formula itself, which involves the exponential function, is
modelled over the reals.
-/

namespace SemanticMemory

/-! ## Scoring (utils/hybrid-search.js and db/schema.sql) -/

/-- Embedding of `calculateRecencyScore` (utils/hybrid-search.js) and of the
SQL function `calculate_recency_score` (db/schema.sql): exponential decay
`exp (-daysSinceAccess / decayDays)`.  The JavaScript converts the
`lastAccessed` timestamp to `daysSinceAccess = (now - accessTime) / 86400000`
milliseconds-to-days; here the function is taken directly in the elapsed-days
argument. -/
noncomputable def calculateRecencyScore (daysSinceAccess decayDays : ℝ) : ℝ :=
  Real.exp (-daysSinceAccess / decayDays)

/-- Embedding of `calculateHybridScore` (utils/hybrid-search.js) and of the
SQL function `calculate_hybrid_score` (db/schema.sql):
`(semanticWeight * s + recencyWeight * recency) * (0.5 + importance)`. -/
noncomputable def calculateHybridScore
    (semanticSimilarity daysSinceAccess importance
     semanticWeight recencyWeight decayDays : ℝ) : ℝ :=
  (semanticWeight * semanticSimilarity
      + recencyWeight * calculateRecencyScore daysSinceAccess decayDays)
    * (0.5 + importance)

/-- C1: the hybrid score equals
`(w_s * s + w_r * exp (-d / D)) * (0.5 + i)`, and for importance
`i ∈ [0,1]` the importance factor `0.5 + i` lies in `[0.5, 1.5]`. -/
theorem c1_hybrid_score_formula
    (s d i ws wr D : ℝ) (h0 : 0 ≤ i) (h1 : i ≤ 1) :
    calculateHybridScore s d i ws wr D
        = (ws * s + wr * Real.exp (-d / D)) * (0.5 + i)
      ∧ (0.5 : ℝ) ≤ 0.5 + i ∧ 0.5 + i ≤ 1.5 := by
  refine ⟨rfl, by linarith, by linarith⟩

/-- Concrete instantiation of `c1_hybrid_score_formula` at
`s = 1, d = 0, i = 1/2` with the default weights. -/
theorem c1_hybrid_score_formula_witness :
    (0 : ℝ) ≤ 1/2 ∧ (1/2 : ℝ) ≤ 1 ∧
      (calculateHybridScore 1 0 (1/2) 0.8 0.2 30
          = (0.8 * 1 + 0.2 * Real.exp (-0 / 30)) * (0.5 + 1/2)
        ∧ (0.5 : ℝ) ≤ 0.5 + 1/2 ∧ (0.5 : ℝ) + 1/2 ≤ 1.5) :=
  ⟨by norm_num, by norm_num,
    c1_hybrid_score_formula 1 0 (1/2) 0.8 0.2 30 (by norm_num) (by norm_num)⟩

/-- C9: for fixed similarity and importance, with positive recency weight
and decay constant and non-negative importance, the hybrid score is strictly
decreasing in the days-since-access argument, and tends to
`semanticWeight * s * (0.5 + i)` as days-since-access tends to infinity. -/
theorem c9_recency_monotonicity
    (s i ws wr D : ℝ) (hwr : 0 < wr) (hD : 0 < D) (hi : 0 ≤ i) :
    (∀ d₁ d₂ : ℝ, d₁ < d₂ →
        calculateHybridScore s d₂ i ws wr D < calculateHybridScore s d₁ i ws wr D)
    ∧ Filter.Tendsto (fun d => calculateHybridScore s d i ws wr D)
        Filter.atTop (nhds (ws * s * (0.5 + i))) := by
  constructor
  · intro d₁ d₂ hlt
    unfold calculateHybridScore calculateRecencyScore
    have himp : (0 : ℝ) < 0.5 + i := by linarith
    have hexp : Real.exp (-d₂ / D) < Real.exp (-d₁ / D) := by
      apply Real.exp_lt_exp.mpr
      apply div_lt_div_of_pos_right _ hD
      linarith
    have hbase : ws * s + wr * Real.exp (-d₂ / D)
        < ws * s + wr * Real.exp (-d₁ / D) := by
      have := mul_lt_mul_of_pos_left hexp hwr
      linarith
    exact mul_lt_mul_of_pos_right hbase himp
  · unfold calculateHybridScore calculateRecencyScore
    have hdiv : Filter.Tendsto (fun d : ℝ => d / D) Filter.atTop Filter.atTop :=
      Filter.Tendsto.atTop_div_const hD Filter.tendsto_id
    have hexp : Filter.Tendsto (fun d : ℝ => Real.exp (-d / D))
        Filter.atTop (nhds 0) := by
      have h := Real.tendsto_exp_neg_atTop_nhds_zero.comp hdiv
      simpa [Function.comp_def, neg_div] using h
    have hbase : Filter.Tendsto
        (fun d : ℝ => ws * s + wr * Real.exp (-d / D))
        Filter.atTop (nhds (ws * s + wr * 0)) :=
      (hexp.const_mul wr).const_add (ws * s)
    have := hbase.mul_const (0.5 + i)
    simpa using this

/-- Concrete instantiation of `c9_recency_monotonicity` at
`s = 1, i = 1/2` with the default configuration weights. -/
theorem c9_recency_monotonicity_witness :
    (0 : ℝ) < 0.2 ∧ (0 : ℝ) < 30 ∧ (0 : ℝ) ≤ 1/2 ∧
      ((∀ d₁ d₂ : ℝ, d₁ < d₂ →
          calculateHybridScore 1 d₂ (1/2) 0.8 0.2 30
            < calculateHybridScore 1 d₁ (1/2) 0.8 0.2 30)
        ∧ Filter.Tendsto (fun d => calculateHybridScore 1 d (1/2) 0.8 0.2 30)
            Filter.atTop (nhds (0.8 * 1 * (0.5 + 1/2)))) :=
  ⟨by norm_num, by norm_num, by norm_num,
    c9_recency_monotonicity 1 (1/2) 0.8 0.2 30 (by norm_num) (by norm_num)
      (by norm_num)⟩

/-! ## Data model (db/schema.sql, `memories` table)

Fields of the `memories` row that the verified operations consult.
Timestamps are rationals (epoch instants); the stored embedding vector is a
list of rationals; the pgvector distance and the SQL-computed hybrid score
are abstracted as functions on rows, their formula being verified separately
over the reals above. -/

structure Memory where
  id : ℕ
  content : String
  embedding : List ℚ
  tags : List String
  source : Option String
  importance : ℚ
  lastAccessed : ℚ
  expiresAt : Option ℚ
  deletedAt : Option ℚ
deriving DecidableEq

/-! ## Search (db/queries.js, `MemoryQueries.search`) -/

/-- Embedding of the WHERE clause built by `MemoryQueries.search`
(db/queries.js): the base condition is `deleted_at IS NULL`; when a
non-empty tag list is supplied the array-overlap condition `tags && $n` is
added; when a source is supplied the exact condition `source = $n` is added.
The clause does not consult `expires_at`. -/
def searchWhere (tagFilter : Option (List String)) (sourceFilter : Option String)
    (m : Memory) : Bool :=
  m.deletedAt.isNone
    && (match tagFilter with
        | none => true
        | some ts =>
            if ts.isEmpty then true else ts.any (fun t => decide (t ∈ m.tags)))
    && (match sourceFilter with
        | none => true
        | some s => decide (m.source = some s))

/-- Descending order on hybrid scores, the `ORDER BY hybrid_score DESC` of
`MemoryQueries.search`. -/
def scoreDesc (score : Memory → ℚ) (a b : Memory) : Prop := score b ≤ score a

instance (score : Memory → ℚ) : DecidableRel (scoreDesc score) := fun a b =>
  inferInstanceAs (Decidable (score b ≤ score a))

/-- Embedding of `MemoryQueries.search` (db/queries.js): filter the table by
the WHERE clause, `ORDER BY hybrid_score DESC`, `LIMIT limit`, then the
JavaScript-side `rows.filter(row => row.hybrid_score >= minScore)`.  The
hybrid score computed row-wise by the SQL query is abstracted as `score`;
its formula is `calculateHybridScore`, verified over the reals above. -/
def search (db : List Memory) (score : Memory → ℚ) (limit : ℕ) (minScore : ℚ)
    (tagFilter : Option (List String)) (sourceFilter : Option String) :
    List Memory :=
  (((db.filter (searchWhere tagFilter sourceFilter)).insertionSort
      (scoreDesc score)).take limit).filter
    (fun m => decide (minScore ≤ score m))

/-- Membership in a search result implies membership in the top-`limit`
slice of the sorted candidate pool together with the score threshold. -/
theorem mem_search (db : List Memory) (score : Memory → ℚ) (limit : ℕ)
    (minScore : ℚ) (tf : Option (List String)) (sf : Option String)
    (x : Memory) (hx : x ∈ search db score limit minScore tf sf) :
    x ∈ ((db.filter (searchWhere tf sf)).insertionSort
          (scoreDesc score)).take limit
      ∧ minScore ≤ score x := by
  have h := List.mem_filter.mp hx
  exact ⟨h.1, of_decide_eq_true h.2⟩

/-- Every member of a search result satisfies the WHERE clause. -/
theorem mem_search_where (db : List Memory) (score : Memory → ℚ) (limit : ℕ)
    (minScore : ℚ) (tf : Option (List String)) (sf : Option String)
    (x : Memory) (hx : x ∈ search db score limit minScore tf sf) :
    searchWhere tf sf x = true := by
  have h1 := (mem_search db score limit minScore tf sf x hx).1
  have h2 := List.mem_of_mem_take h1
  have h3 := (List.mem_insertionSort (scoreDesc score)).mp h2
  exact (List.mem_filter.mp h3).2

/-- C3: the search result equals the candidate pool sorted by hybrid score
descending, truncated to `limit`, then filtered to scores at or above
`minScore`; consequently it has at most `limit` elements and each returned
memory lies in the top-`limit` slice of the ranking with score at least
`minScore`. -/
theorem c3_search_order_of_operations
    (db : List Memory) (score : Memory → ℚ) (limit : ℕ) (minScore : ℚ)
    (tf : Option (List String)) (sf : Option String)
    (x : Memory) (hx : x ∈ search db score limit minScore tf sf) :
    search db score limit minScore tf sf
        = (((db.filter (searchWhere tf sf)).insertionSort
              (scoreDesc score)).take limit).filter
            (fun m => decide (minScore ≤ score m))
      ∧ (search db score limit minScore tf sf).length ≤ limit
      ∧ x ∈ ((db.filter (searchWhere tf sf)).insertionSort
              (scoreDesc score)).take limit
      ∧ minScore ≤ score x := by
  refine ⟨rfl, ?_, (mem_search db score limit minScore tf sf x hx).1,
    (mem_search db score limit minScore tf sf x hx).2⟩
  calc (search db score limit minScore tf sf).length
      ≤ (((db.filter (searchWhere tf sf)).insertionSort
            (scoreDesc score)).take limit).length :=
        List.length_filter_le _ _
    _ ≤ limit := List.length_take_le _ _

/-- Sample row used by concrete instantiations; integer-valued rationals so
that the kernel can evaluate them. -/
def mem3a : Memory :=
  { id := 1, content := "alpha", embedding := [], tags := ["t1"],
    source := some "chat", importance := 1, lastAccessed := 0,
    expiresAt := none, deletedAt := none }

/-- Second sample row, lower-scoring under `score3`. -/
def mem3b : Memory :=
  { id := 2, content := "beta", embedding := [], tags := ["t2"],
    source := none, importance := 1, lastAccessed := 0,
    expiresAt := none, deletedAt := none }

/-- Sample score assignment: memory 1 scores 2, everything else 1. -/
def score3 : Memory → ℚ := fun m => if m.id = 1 then 2 else 1

/-- Concrete instantiation of `c3_search_order_of_operations`: a two-element
pool with limit 1 keeps only the top-ranked row, and raising the threshold
above the top score returns fewer than `limit` results. -/
theorem c3_search_order_of_operations_witness :
    mem3a ∈ search [mem3a, mem3b] score3 1 1 none none
      ∧ ((search [mem3a, mem3b] score3 1 1 none none).length ≤ 1
          ∧ mem3a ∈ (([mem3a, mem3b].filter (searchWhere none none)).insertionSort
              (scoreDesc score3)).take 1
          ∧ (1 : ℚ) ≤ score3 mem3a)
      ∧ search [mem3a, mem3b] score3 1 3 none none = [] :=
  ⟨by decide,
    ⟨(c3_search_order_of_operations [mem3a, mem3b] score3 1 1 none none
        mem3a (by decide)).2.1,
      (c3_search_order_of_operations [mem3a, mem3b] score3 1 1 none none
        mem3a (by decide)).2.2.1,
      (c3_search_order_of_operations [mem3a, mem3b] score3 1 1 none none
        mem3a (by decide)).2.2.2⟩,
    by decide⟩

/-- C4 (amended): every memory returned by search is non-deleted; when a
non-empty tag filter is supplied the memory has at least one of the given
tags; when a source filter is supplied the memory's source equals it
exactly.  (The claim's non-expired condition does not hold: the WHERE clause
built by `MemoryQueries.search` never consults `expires_at`; see the
counterexample.) -/
theorem c4_search_filter_semantics
    (db : List Memory) (score : Memory → ℚ) (limit : ℕ) (minScore : ℚ)
    (tf : Option (List String)) (sf : Option String)
    (x : Memory) (hx : x ∈ search db score limit minScore tf sf) :
    x.deletedAt = none
      ∧ (∀ ts, tf = some ts → ts ≠ [] → ∃ t ∈ ts, t ∈ x.tags)
      ∧ (∀ s, sf = some s → x.source = some s) := by
  have h := mem_search_where db score limit minScore tf sf x hx
  unfold searchWhere at h
  rw [Bool.and_eq_true, Bool.and_eq_true] at h
  obtain ⟨⟨hdel, htag⟩, hsrc⟩ := h
  refine ⟨Option.isNone_iff_eq_none.mp hdel, ?_, ?_⟩
  · intro ts hts hne
    subst hts
    have htag' : (if ts.isEmpty then true
        else ts.any fun t => decide (t ∈ x.tags)) = true := htag
    rw [if_neg (by simpa using hne)] at htag'
    obtain ⟨t, htmem, htdec⟩ := List.any_eq_true.mp htag'
    exact ⟨t, htmem, of_decide_eq_true htdec⟩
  · intro s hs
    subst hs
    have hsrc' : decide (x.source = some s) = true := hsrc
    exact of_decide_eq_true hsrc'

/-- Concrete instantiation of `c4_search_filter_semantics`: a search with a
tag filter and a source filter returns a row that is non-deleted, carries one
of the requested tags, and has exactly the requested source. -/
theorem c4_search_filter_semantics_witness :
    mem3a ∈ search [mem3a, mem3b] score3 10 0 (some ["t1"]) (some "chat")
      ∧ mem3a.deletedAt = none
      ∧ (∃ t ∈ ["t1"], t ∈ mem3a.tags)
      ∧ mem3a.source = some "chat" := by
  have hx : mem3a ∈ search [mem3a, mem3b] score3 10 0 (some ["t1"]) (some "chat") := by
    decide
  have h := c4_search_filter_semantics [mem3a, mem3b] score3 10 0
    (some ["t1"]) (some "chat") mem3a hx
  exact ⟨hx, h.1, h.2.1 ["t1"] rfl (by decide), h.2.2 "chat" rfl⟩

/-- Sample row whose `expires_at` lies in the past of evaluation instant 10
yet which is not soft-deleted. -/
def mem4expired : Memory :=
  { id := 7, content := "stale", embedding := [], tags := [],
    source := none, importance := 1, lastAccessed := 0,
    expiresAt := some 5, deletedAt := none }

/-- C4 counterexample: `MemoryQueries.search` returns a memory whose
`expires_at` (instant 5) is already in the past at evaluation instant 10,
because the WHERE clause it builds checks only `deleted_at IS NULL` and the
optional tag/source filters — the `active_memories` view of db/schema.sql,
which would exclude expired rows, is not used by the search query. -/
theorem c4_search_returns_expired_counterexample :
    mem4expired ∈ search [mem4expired] (fun _ => 1) 10 0 none none
      ∧ mem4expired.expiresAt = some 5 ∧ (5 : ℚ) < 10 := by decide

/-! ## Relations (db/schema.sql `memory_relations`, `RelationQueries`) -/

structure Relation where
  sourceMemoryId : ℕ
  targetMemoryId : ℕ
  relationType : String
  strength : ℚ
deriving DecidableEq

/-- Directions accepted by `RelationQueries.getByMemory`. -/
inductive Direction
  | outgoing
  | incoming
  | both
deriving DecidableEq

/-- Row lookup by primary key, realizing the SQL inner joins on
`memories.id`. -/
def findMemory (db : List Memory) (i : ℕ) : Option Memory :=
  db.find? (fun m => m.id == i)

/-- Descending order on relation strength (`ORDER BY r.strength DESC`). -/
def strengthDesc (a b : Relation × Memory × Memory) : Prop :=
  b.1.strength ≤ a.1.strength

instance : DecidableRel strengthDesc := fun a b =>
  inferInstanceAs (Decidable (b.1.strength ≤ a.1.strength))

/-- Embedding of `RelationQueries.getByMemory` (db/queries.js): inner-joins
each relation row with its source and target memory rows (`JOIN memories s`,
`JOIN memories t` — with no `deleted_at` condition on either join), keeps
the rows whose source and/or target id matches `memoryId` according to
`direction` (the handler uses the default, `both`), and orders by strength
descending. -/
def getByMemory (rels : List Relation) (db : List Memory) (memoryId : ℕ)
    (direction : Direction) : List (Relation × Memory × Memory) :=
  ((rels.filterMap (fun r =>
      match findMemory db r.sourceMemoryId, findMemory db r.targetMemoryId with
      | some s, some t => some (r, s, t)
      | _, _ => none)).filter (fun j =>
        match direction with
        | .outgoing => j.1.sourceMemoryId == memoryId
        | .incoming => j.1.targetMemoryId == memoryId
        | .both =>
            j.1.sourceMemoryId == memoryId || j.1.targetMemoryId == memoryId)).insertionSort
    strengthDesc

/-- Ascending order on the pgvector cosine distance
(`ORDER BY embedding <=> $1`); the distance of a row to the query embedding
is abstracted as `dist`. -/
def distAsc (dist : Memory → ℚ) (a b : Memory) : Prop := dist a ≤ dist b

instance (dist : Memory → ℚ) : DecidableRel (distAsc dist) := fun a b =>
  inferInstanceAs (Decidable (dist a ≤ dist b))

/-- Embedding of `MemoryQueries.getRelated` (db/queries.js): looks the memory
up among non-deleted rows (`WHERE id = $1 AND deleted_at IS NULL`); when
absent returns the empty list; otherwise returns the `limit` rows other than
the memory itself and not soft-deleted
(`WHERE id != $2 AND deleted_at IS NULL`), ordered by embedding distance
ascending. -/
def getRelated (db : List Memory) (dist : Memory → ℚ) (memoryId limit : ℕ) :
    List Memory :=
  match db.find? (fun m => m.id == memoryId && m.deletedAt.isNone) with
  | none => []
  | some _ =>
      ((db.filter
          (fun m => m.id != memoryId && m.deletedAt.isNone)).insertionSort
        (distAsc dist)).take limit

/-- Every memory returned by `getRelated` is non-deleted; helper shared by
the soft-delete claims. -/
theorem getRelated_not_deleted (db : List Memory) (dist : Memory → ℚ)
    (memoryId limit : ℕ) (x : Memory)
    (hx : x ∈ getRelated db dist memoryId limit) : x.deletedAt = none := by
  unfold getRelated at hx
  cases hfind : db.find? (fun m => m.id == memoryId && m.deletedAt.isNone) with
  | none => rw [hfind] at hx; simp at hx
  | some m =>
      rw [hfind] at hx
      have h1 := List.mem_of_mem_take hx
      have h2 := (List.mem_insertionSort (distAsc dist)).mp h1
      have h3 := (List.mem_filter.mp h2).2
      rw [Bool.and_eq_true] at h3
      exact Option.isNone_iff_eq_none.mp h3.2

/-! ## get_related tool handler (tools/get_related.js) -/

/-- One output item of the `get_related` tool, reduced to the fields the
claims consult: the related memory's id, the handler's sort key
(`relationStrength` for explicit entries, `similarity` for semantic
entries, the JavaScript `a.relationStrength || a.similarity || 0`), and
which branch produced it. -/
structure RelatedEntry where
  id : ℕ
  score : ℚ
  explicitRel : Bool
deriving DecidableEq

/-- Descending order on the `get_related` sort key. -/
def entryDesc (a b : RelatedEntry) : Prop := b.score ≤ a.score

instance : DecidableRel entryDesc := fun a b =>
  inferInstanceAs (Decidable (b.score ≤ a.score))

/-- Embedding of the `get_related` tool handler (tools/get_related.js): after
the `MemoryQueries.getById` lookup (`WHERE id = $1 AND deleted_at IS NULL`),
the explicit branch maps each `RelationQueries.getByMemory` row to the
opposite endpoint of the edge; the semantic branch appends each
`MemoryQueries.getRelated` row whose id is not already present (similarity
being one minus the cosine distance); the combined list is sorted by
strength/similarity descending and truncated to `limit`. -/
def getRelatedTool (db : List Memory) (rels : List Relation)
    (dist : Memory → ℚ) (memoryId limit : ℕ)
    (includeExplicit includeSimilar : Bool) : Option (List RelatedEntry) :=
  match db.find? (fun m => m.id == memoryId && m.deletedAt.isNone) with
  | none => none
  | some _ =>
      let explicitEntries : List RelatedEntry :=
        if includeExplicit then
          (getByMemory rels db memoryId .both).map (fun j =>
            if j.1.sourceMemoryId == memoryId then
              { id := j.1.targetMemoryId, score := j.1.strength,
                explicitRel := true }
            else
              { id := j.1.sourceMemoryId, score := j.1.strength,
                explicitRel := true })
        else []
      let allEntries : List RelatedEntry :=
        if includeSimilar then
          (getRelated db dist memoryId limit).foldl (fun acc m =>
            if acc.any (fun e => e.id == m.id) then acc
            else acc ++ [RelatedEntry.mk m.id (1 - dist m) false])
            explicitEntries
        else explicitEntries
      some ((allEntries.insertionSort entryDesc).take limit)

/-- Active sample row for the soft-delete counterexample. -/
def memAlive : Memory :=
  { id := 1, content := "alive", embedding := [], tags := [],
    source := none, importance := 1, lastAccessed := 0,
    expiresAt := none, deletedAt := none }

/-- Soft-deleted sample row (its `deleted_at` is set). -/
def memGone : Memory :=
  { id := 2, content := "gone", embedding := [], tags := [],
    source := none, importance := 1, lastAccessed := 0,
    expiresAt := none, deletedAt := some 3 }

/-- Explicit relation edge from the active row to the soft-deleted row. -/
def relAliveGone : Relation :=
  { sourceMemoryId := 1, targetMemoryId := 2,
    relationType := "related_to", strength := 1 }

/-- C2 counterexample: the soft-deleted memory 2 is returned by the
`get_related` tool as the opposite endpoint of an explicit relation edge —
`RelationQueries.getByMemory` joins the `memories` table without any
`deleted_at` filter, and the handler's explicit branch performs no
deletion check either. -/
theorem c2_soft_deleted_via_relation_counterexample :
    memGone.deletedAt = some 3
      ∧ getRelatedTool [memAlive, memGone] [relAliveGone] (fun _ => 0) 1 10
            true true
          = some [{ id := 2, score := 1, explicitRel := true }]
      ∧ (2 : ℕ) = memGone.id := by decide

/-! ## Recall merge (tools/recall_context.js) -/

/-- One value of the `allResults` map of the `recall_context` handler: the
memory row spread from its search result, its hybrid score for the matching
query, and the query text recorded as `matchedQuery`. -/
structure RecallEntry where
  mem : Memory
  score : ℚ
  matchedQuery : String
deriving DecidableEq

/-- Embedding of one iteration of the dedup loop in the `recall_context`
handler (tools/recall_context.js): a candidate with a fresh id is inserted;
a candidate whose hybrid score strictly exceeds the stored entry's score
replaces that entry in place (JavaScript `Map.set` on an existing key keeps
the original insertion position); an equal or lower score leaves the map
unchanged.  A candidate is the triple (query text, memory row, hybrid
score). -/
def mergeInsert (acc : List RecallEntry) (c : String × Memory × ℚ) :
    List RecallEntry :=
  match acc.find? (fun e => e.mem.id == c.2.1.id) with
  | none => acc ++ [⟨c.2.1, c.2.2, c.1⟩]
  | some e =>
      if e.score < c.2.2 then
        acc.map (fun x =>
          if x.mem.id == c.2.1.id then ⟨c.2.1, c.2.2, c.1⟩ else x)
      else acc

/-- Folding the merge step over all candidates in query order realizes the
nested `for` loops of the handler. -/
def mergeCandidates (cs : List (String × Memory × ℚ)) : List RecallEntry :=
  cs.foldl mergeInsert []

/-- Candidate stream of the recall loop: each query is searched with the
per-query budget and the shared `minScore` and no tag or source filter;
every returned row contributes the candidate (query text, row, score).
Each query carries its own hybrid-score function, the query embedding being
different per query. -/
def recallCandidates (db : List Memory)
    (queries : List (String × (Memory → ℚ))) (perQueryLimit : ℕ)
    (minScore : ℚ) : List (String × Memory × ℚ) :=
  queries.flatMap (fun q =>
    (search db q.2 perQueryLimit minScore none none).map
      (fun m => (q.1, m, q.2 m)))

/-- Descending order on merged recall scores. -/
def recallDesc (a b : RecallEntry) : Prop := b.score ≤ a.score

instance : DecidableRel recallDesc := fun a b =>
  inferInstanceAs (Decidable (b.score ≤ a.score))

instance : IsTotal RecallEntry recallDesc :=
  ⟨fun a b => (le_total b.score a.score).imp (fun h => h) (fun h => h)⟩

instance : IsTrans RecallEntry recallDesc :=
  ⟨fun _ _ _ h1 h2 => le_trans h2 h1⟩

/-- Embedding of the `recall_context` handler's retrieval pipeline
(tools/recall_context.js): each of the task/context queries is searched with
budget `Math.ceil(limit / queries.length) + 5`, the results are merged
keeping the best score per memory id, and the merged set is sorted by score
descending and truncated to `limit`. -/
def recallContext (db : List Memory) (queries : List (String × (Memory → ℚ)))
    (limit : ℕ) (minScore : ℚ) : List RecallEntry :=
  ((mergeCandidates (recallCandidates db queries
        ((limit + queries.length - 1) / queries.length + 5) minScore)).insertionSort
      recallDesc).take limit

/-- The recall map never holds two entries with the same memory id. -/
def DistinctIds (l : List RecallEntry) : Prop :=
  l.Pairwise (fun a b => a.mem.id ≠ b.mem.id)

/-- Every entry of a merge step comes from the accumulator or is the
inserted candidate itself. -/
theorem mergeInsert_origin (acc : List RecallEntry) (c : String × Memory × ℚ)
    (e : RecallEntry) (he : e ∈ mergeInsert acc c) :
    e ∈ acc ∨ e = ⟨c.2.1, c.2.2, c.1⟩ := by
  unfold mergeInsert at he
  cases hfind : acc.find? (fun e => e.mem.id == c.2.1.id) with
  | none =>
      rw [hfind] at he
      rcases List.mem_append.mp he with h | h
      · exact Or.inl h
      · exact Or.inr (List.mem_singleton.mp h)
  | some ex =>
      rw [hfind] at he
      have he' : e ∈ (if ex.score < c.2.2 then
          acc.map (fun x =>
            if x.mem.id == c.2.1.id then
              (⟨c.2.1, c.2.2, c.1⟩ : RecallEntry) else x)
          else acc) := he
      by_cases hlt : ex.score < c.2.2
      · rw [if_pos hlt] at he'
        obtain ⟨x, hx, hfx⟩ := List.mem_map.mp he'
        by_cases hid : x.mem.id == c.2.1.id
        · rw [if_pos hid] at hfx; exact Or.inr hfx.symm
        · rw [if_neg hid] at hfx; exact Or.inl (hfx ▸ hx)
      · rw [if_neg hlt] at he'
        exact Or.inl he'

/-- A merge step preserves distinctness of memory ids. -/
theorem mergeInsert_distinct (acc : List RecallEntry)
    (c : String × Memory × ℚ) (h : DistinctIds acc) :
    DistinctIds (mergeInsert acc c) := by
  unfold mergeInsert
  cases hfind : acc.find? (fun e => e.mem.id == c.2.1.id) with
  | none =>
      show DistinctIds (acc ++ [⟨c.2.1, c.2.2, c.1⟩])
      unfold DistinctIds at h ⊢
      refine List.pairwise_append.mpr ⟨h, List.pairwise_singleton _ _, ?_⟩
      intro a ha b hb
      rw [List.mem_singleton.mp hb]
      have := List.find?_eq_none.mp hfind a ha
      simpa using this
  | some ex =>
      show DistinctIds (if ex.score < c.2.2 then
          acc.map (fun x =>
            if x.mem.id == c.2.1.id then
              (⟨c.2.1, c.2.2, c.1⟩ : RecallEntry) else x)
          else acc)
      by_cases hlt : ex.score < c.2.2
      · rw [if_pos hlt]
        unfold DistinctIds at h ⊢
        refine List.Pairwise.map _ ?_ h
        intro a b hab
        have hid : ∀ x : RecallEntry,
            ((if x.mem.id == c.2.1.id then
                (⟨c.2.1, c.2.2, c.1⟩ : RecallEntry) else x)).mem.id
              = x.mem.id := by
          intro x
          by_cases hx : (x.mem.id == c.2.1.id) = true
          · rw [if_pos hx]
            have : x.mem.id = c.2.1.id := by simpa using hx
            exact this.symm
          · rw [if_neg hx]
        rw [hid a, hid b]
        exact hab
      · rw [if_neg hlt]; exact h

/-- Under distinct ids, two members with the same memory id are the same
entry. -/
theorem distinct_unique {l : List RecallEntry} (h : DistinctIds l)
    {a b : RecallEntry} (ha : a ∈ l) (hb : b ∈ l)
    (hid : a.mem.id = b.mem.id) : a = b := by
  induction l with
  | nil => cases ha
  | cons x xs ih =>
      unfold DistinctIds at h
      rw [List.pairwise_cons] at h
      rcases List.mem_cons.mp ha with ha' | ha' <;>
        rcases List.mem_cons.mp hb with hb' | hb'
      · exact ha'.trans hb'.symm
      · exact absurd (ha' ▸ hid) (h.1 b hb')
      · exact absurd (hb' ▸ hid.symm) (h.1 a ha')
      · exact ih h.2 ha' hb'

/-- After a merge step some entry carries the candidate's id with a score at
least the candidate's. -/
theorem mergeInsert_dominates (acc : List RecallEntry)
    (c : String × Memory × ℚ) :
    ∃ e ∈ mergeInsert acc c, e.mem.id = c.2.1.id ∧ c.2.2 ≤ e.score := by
  unfold mergeInsert
  cases hfind : acc.find? (fun e => e.mem.id == c.2.1.id) with
  | none =>
      exact ⟨⟨c.2.1, c.2.2, c.1⟩,
        List.mem_append.mpr (Or.inr (List.mem_singleton_self _)), rfl, le_refl _⟩
  | some ex =>
      have hex : ex ∈ acc := List.mem_of_find?_eq_some hfind
      have hbeq := List.find?_some hfind
      have hexid : ex.mem.id = c.2.1.id := by simpa using hbeq
      show ∃ e ∈ (if ex.score < c.2.2 then
          acc.map (fun x =>
            if x.mem.id == c.2.1.id then
              (⟨c.2.1, c.2.2, c.1⟩ : RecallEntry) else x)
          else acc), e.mem.id = c.2.1.id ∧ c.2.2 ≤ e.score
      by_cases hlt : ex.score < c.2.2
      · rw [if_pos hlt]
        refine ⟨⟨c.2.1, c.2.2, c.1⟩, ?_, rfl, le_refl _⟩
        have hfx : (if ex.mem.id == c.2.1.id then
            (⟨c.2.1, c.2.2, c.1⟩ : RecallEntry) else ex)
            = ⟨c.2.1, c.2.2, c.1⟩ := if_pos (by simpa using hexid)
        exact List.mem_map.mpr ⟨ex, hex, hfx⟩
      · rw [if_neg hlt]
        exact ⟨ex, hex, hexid, le_of_not_lt hlt⟩

/-- A merge step never loses an id and never lowers a kept score. -/
theorem mergeInsert_mono (acc : List RecallEntry) (c : String × Memory × ℚ)
    (h : DistinctIds acc) (e : RecallEntry) (he : e ∈ acc) :
    ∃ e' ∈ mergeInsert acc c, e'.mem.id = e.mem.id ∧ e.score ≤ e'.score := by
  unfold mergeInsert
  cases hfind : acc.find? (fun e => e.mem.id == c.2.1.id) with
  | none =>
      exact ⟨e, List.mem_append.mpr (Or.inl he), rfl, le_refl _⟩
  | some ex =>
      have hex : ex ∈ acc := List.mem_of_find?_eq_some hfind
      have hbeq := List.find?_some hfind
      have hexid : ex.mem.id = c.2.1.id := by simpa using hbeq
      show ∃ e' ∈ (if ex.score < c.2.2 then
          acc.map (fun x =>
            if x.mem.id == c.2.1.id then
              (⟨c.2.1, c.2.2, c.1⟩ : RecallEntry) else x)
          else acc), e'.mem.id = e.mem.id ∧ e.score ≤ e'.score
      by_cases hlt : ex.score < c.2.2
      · rw [if_pos hlt]
        by_cases hid : e.mem.id = c.2.1.id
        · have heq : e = ex := distinct_unique h he hex (hid.trans hexid.symm)
          refine ⟨⟨c.2.1, c.2.2, c.1⟩, ?_, hid.symm, ?_⟩
          · have hfx : (if e.mem.id == c.2.1.id then
                (⟨c.2.1, c.2.2, c.1⟩ : RecallEntry) else e)
                = ⟨c.2.1, c.2.2, c.1⟩ := if_pos (by simpa using hid)
            exact List.mem_map.mpr ⟨e, he, hfx⟩
          · exact le_of_lt (heq ▸ hlt)
        · refine ⟨e, ?_, rfl, le_refl _⟩
          have hfx : (if e.mem.id == c.2.1.id then
              (⟨c.2.1, c.2.2, c.1⟩ : RecallEntry) else e) = e :=
            if_neg (by simpa using hid)
          exact List.mem_map.mpr ⟨e, he, hfx⟩
      · rw [if_neg hlt]
        exact ⟨e, he, rfl, le_refl _⟩

/-- The fold of merge steps preserves distinct ids. -/
theorem foldl_mergeInsert_distinct (cs : List (String × Memory × ℚ))
    (acc : List RecallEntry) (h : DistinctIds acc) :
    DistinctIds (cs.foldl mergeInsert acc) := by
  induction cs generalizing acc with
  | nil => exact h
  | cons c cs ih => exact ih _ (mergeInsert_distinct acc c h)

/-- Every entry of the fold comes from the accumulator or from one of the
candidates. -/
theorem foldl_mergeInsert_origin (cs : List (String × Memory × ℚ))
    (acc : List RecallEntry) (e : RecallEntry)
    (he : e ∈ cs.foldl mergeInsert acc) :
    e ∈ acc ∨ ∃ c ∈ cs, e = ⟨c.2.1, c.2.2, c.1⟩ := by
  induction cs generalizing acc with
  | nil => exact Or.inl he
  | cons c cs ih =>
      rcases ih (mergeInsert acc c) he with h | h
      · rcases mergeInsert_origin acc c e h with h' | h'
        · exact Or.inl h'
        · exact Or.inr ⟨c, List.mem_cons_self c cs, h'⟩
      · obtain ⟨c', hc', he'⟩ := h
        exact Or.inr ⟨c', List.mem_cons_of_mem c hc', he'⟩

/-- The fold never loses an id of the accumulator and never lowers its
score. -/
theorem foldl_mergeInsert_mono (cs : List (String × Memory × ℚ))
    (acc : List RecallEntry) (h : DistinctIds acc) (e : RecallEntry)
    (he : e ∈ acc) :
    ∃ e' ∈ cs.foldl mergeInsert acc,
      e'.mem.id = e.mem.id ∧ e.score ≤ e'.score := by
  induction cs generalizing acc e with
  | nil => exact ⟨e, he, rfl, le_refl _⟩
  | cons c cs ih =>
      obtain ⟨e₁, he₁, hid₁, hs₁⟩ := mergeInsert_mono acc c h e he
      obtain ⟨e', he', hid', hs'⟩ :=
        ih (mergeInsert acc c) (mergeInsert_distinct acc c h) e₁ he₁
      exact ⟨e', he', hid'.trans hid₁, hs₁.trans hs'⟩

/-- After folding, every candidate is represented by an entry with its id
and at least its score. -/
theorem foldl_mergeInsert_dominates (cs : List (String × Memory × ℚ))
    (acc : List RecallEntry) (h : DistinctIds acc)
    (c : String × Memory × ℚ) (hc : c ∈ cs) :
    ∃ e ∈ cs.foldl mergeInsert acc,
      e.mem.id = c.2.1.id ∧ c.2.2 ≤ e.score := by
  induction cs generalizing acc with
  | nil => cases hc
  | cons c₀ cs ih =>
      rcases List.mem_cons.mp hc with hc' | hc'
      · subst hc'
        obtain ⟨e₁, he₁, hid₁, hs₁⟩ := mergeInsert_dominates acc c
        obtain ⟨e', he', hid', hs'⟩ := foldl_mergeInsert_mono cs
          (mergeInsert acc c) (mergeInsert_distinct acc c h) e₁ he₁
        exact ⟨e', he', hid'.trans hid₁, hs₁.trans hs'⟩
      · exact ih (mergeInsert acc c₀) (mergeInsert_distinct acc c₀ h) hc'

/-- The merged map has pairwise-distinct memory ids. -/
theorem mergeCandidates_distinct (cs : List (String × Memory × ℚ)) :
    DistinctIds (mergeCandidates cs) :=
  foldl_mergeInsert_distinct cs [] List.Pairwise.nil

/-- Every merged entry is one of the candidates, with `matchedQuery` the
candidate's query text and `score` the candidate's score. -/
theorem mergeCandidates_origin (cs : List (String × Memory × ℚ))
    (e : RecallEntry) (he : e ∈ mergeCandidates cs) :
    ∃ c ∈ cs, e = ⟨c.2.1, c.2.2, c.1⟩ :=
  (foldl_mergeInsert_origin cs [] e he).resolve_left (by simp)

/-- Every candidate id is represented in the merged map with at least the
candidate's score. -/
theorem mergeCandidates_dominates (cs : List (String × Memory × ℚ))
    (c : String × Memory × ℚ) (hc : c ∈ cs) :
    ∃ e ∈ mergeCandidates cs, e.mem.id = c.2.1.id ∧ c.2.2 ≤ e.score :=
  foldl_mergeInsert_dominates cs [] List.Pairwise.nil c hc

/-- A merged entry's score dominates every candidate with its memory id. -/
theorem mergeCandidates_best (cs : List (String × Memory × ℚ))
    (e : RecallEntry) (he : e ∈ mergeCandidates cs)
    (c : String × Memory × ℚ) (hc : c ∈ cs) (hid : c.2.1.id = e.mem.id) :
    c.2.2 ≤ e.score := by
  obtain ⟨e', he', hid', hs'⟩ := mergeCandidates_dominates cs c hc
  have : e' = e :=
    distinct_unique (mergeCandidates_distinct cs) he' he (hid'.trans hid)
  exact this ▸ hs'

/-- Decomposition of membership in the recall candidate stream. -/
theorem recallCandidates_mem (db : List Memory)
    (queries : List (String × (Memory → ℚ))) (perQueryLimit : ℕ)
    (minScore : ℚ) (c : String × Memory × ℚ)
    (hc : c ∈ recallCandidates db queries perQueryLimit minScore) :
    ∃ q ∈ queries, c.1 = q.1
      ∧ c.2.1 ∈ search db q.2 perQueryLimit minScore none none
      ∧ c.2.2 = q.2 c.2.1 := by
  obtain ⟨q, hq, hcq⟩ := List.mem_flatMap.mp hc
  obtain ⟨m, hm, hmc⟩ := List.mem_map.mp hcq
  refine ⟨q, hq, ?_, ?_, ?_⟩
  · rw [← hmc]
  · rw [← hmc]; exact hm
  · rw [← hmc]

/-- Introduction for the recall candidate stream. -/
theorem recallCandidates_intro (db : List Memory)
    (queries : List (String × (Memory → ℚ))) (perQueryLimit : ℕ)
    (minScore : ℚ) (q : String × (Memory → ℚ)) (hq : q ∈ queries)
    (m : Memory) (hm : m ∈ search db q.2 perQueryLimit minScore none none) :
    (q.1, m, q.2 m) ∈ recallCandidates db queries perQueryLimit minScore :=
  List.mem_flatMap.mpr ⟨q, hq, List.mem_map_of_mem _ hm⟩

/-- Entries of the final recall output are merged entries. -/
theorem recallContext_subset_merge (db : List Memory)
    (queries : List (String × (Memory → ℚ))) (limit : ℕ) (minScore : ℚ)
    (e : RecallEntry) (he : e ∈ recallContext db queries limit minScore) :
    e ∈ mergeCandidates (recallCandidates db queries
      ((limit + queries.length - 1) / queries.length + 5) minScore) := by
  unfold recallContext at he
  exact (List.mem_insertionSort recallDesc).mp (List.mem_of_mem_take he)

/-- C2 (amended): a soft-deleted memory is never returned by
`MemoryQueries.search`, never returned by the vector-similarity query
`MemoryQueries.getRelated`, and never appears in the `recall_context`
output.  (The claim's further assertion about the opposite endpoint of an
explicit relation edge does not hold — see the counterexample: the
`RelationQueries.getByMemory` joins carry no `deleted_at` filter.) -/
theorem c2_soft_delete_invisibility
    (db : List Memory) (score dist : Memory → ℚ) (limit rlimit rid : ℕ)
    (minScore : ℚ) (tf : Option (List String)) (sf : Option String)
    (queries : List (String × (Memory → ℚ))) (rlim : ℕ) (rms : ℚ) :
    (∀ x ∈ search db score limit minScore tf sf, x.deletedAt = none)
      ∧ (∀ x ∈ getRelated db dist rid rlimit, x.deletedAt = none)
      ∧ (∀ e ∈ recallContext db queries rlim rms, e.mem.deletedAt = none) := by
  refine ⟨?_, ?_, ?_⟩
  · intro x hx
    have h := mem_search_where db score limit minScore tf sf x hx
    unfold searchWhere at h
    rw [Bool.and_eq_true, Bool.and_eq_true] at h
    exact Option.isNone_iff_eq_none.mp h.1.1
  · intro x hx
    exact getRelated_not_deleted db dist rid rlimit x hx
  · intro e he
    have hm := recallContext_subset_merge db queries rlim rms e he
    obtain ⟨c, hc, hec⟩ := mergeCandidates_origin _ e hm
    obtain ⟨q, _, _, hsearch, _⟩ := recallCandidates_mem _ _ _ _ c hc
    have h := mem_search_where db q.2 _ rms none none c.2.1 hsearch
    unfold searchWhere at h
    rw [Bool.and_eq_true, Bool.and_eq_true] at h
    have : e.mem = c.2.1 := by rw [hec]
    rw [this]
    exact Option.isNone_iff_eq_none.mp h.1.1

/-- Third sample row (active), so that `getRelated` has a non-deleted
neighbour to return. -/
def memThird : Memory :=
  { id := 3, content := "third", embedding := [], tags := [],
    source := none, importance := 1, lastAccessed := 0,
    expiresAt := none, deletedAt := none }

/-- Concrete instantiation of `c2_soft_delete_invisibility` on a store
holding an active row, a soft-deleted row and a third active row: the
search result, the similarity result and the recall output all consist of
non-deleted rows only. -/
theorem c2_soft_delete_invisibility_witness :
    memAlive ∈ search [memAlive, memGone, memThird] score3 10 0 none none
      ∧ memAlive.deletedAt = none
      ∧ memThird ∈ getRelated [memAlive, memGone, memThird] (fun _ => 0) 1 10
      ∧ memThird.deletedAt = none
      ∧ (⟨memAlive, 2, "q"⟩ : RecallEntry)
          ∈ recallContext [memAlive, memGone, memThird] [("q", score3)] 5 0
      ∧ memAlive.deletedAt = none := by
  have h := c2_soft_delete_invisibility [memAlive, memGone, memThird]
    score3 (fun _ => 0) 10 10 1 0 none none [("q", score3)] 5 0
  have h1 : memAlive ∈ search [memAlive, memGone, memThird] score3 10 0
      none none := by decide
  have h2 : memThird ∈ getRelated [memAlive, memGone, memThird]
      (fun _ => 0) 1 10 := by decide
  have h3 : (⟨memAlive, 2, "q"⟩ : RecallEntry)
      ∈ recallContext [memAlive, memGone, memThird] [("q", score3)] 5 0 := by
    decide
  exact ⟨h1, h.1 memAlive h1, h2, h.2.1 memThird h2, h3,
    h.2.2 ⟨memAlive, 2, "q"⟩ h3⟩

/-- C5: every entry of the recall output carries the hybrid score of one of
the task/context sub-queries that retrieved its memory, with `matchedQuery`
the text of that sub-query; that score dominates the score this memory
obtained under every sub-query that retrieved it; the output holds each
memory id at most once; and the output is the merged set sorted by hybrid
score descending and truncated to the overall limit. -/
theorem c5_recall_merge_dedup
    (db : List Memory) (queries : List (String × (Memory → ℚ)))
    (limit : ℕ) (minScore : ℚ) (e : RecallEntry)
    (he : e ∈ recallContext db queries limit minScore) :
    (∃ q ∈ queries, e.matchedQuery = q.1
        ∧ e.mem ∈ search db q.2
            ((limit + queries.length - 1) / queries.length + 5) minScore
            none none
        ∧ e.score = q.2 e.mem)
      ∧ (∀ q ∈ queries, ∀ m ∈ search db q.2
            ((limit + queries.length - 1) / queries.length + 5) minScore
            none none, m.id = e.mem.id → q.2 m ≤ e.score)
      ∧ DistinctIds (recallContext db queries limit minScore)
      ∧ recallContext db queries limit minScore
          = ((mergeCandidates (recallCandidates db queries
                ((limit + queries.length - 1) / queries.length + 5)
                minScore)).insertionSort recallDesc).take limit
      ∧ (recallContext db queries limit minScore).Sorted recallDesc := by
  have hm := recallContext_subset_merge db queries limit minScore e he
  refine ⟨?_, ?_, ?_, rfl, ?_⟩
  · obtain ⟨c, hc, hec⟩ := mergeCandidates_origin _ e hm
    obtain ⟨q, hq, hq1, hsearch, hscore⟩ := recallCandidates_mem _ _ _ _ c hc
    have hmem : e.mem = c.2.1 := by rw [hec]
    have hsc : e.score = c.2.2 := by rw [hec]
    have hmq : e.matchedQuery = c.1 := by rw [hec]
    exact ⟨q, hq, hmq.trans hq1, hmem ▸ hsearch,
      by rw [hsc, hscore, hmem]⟩
  · intro q hq m hmem hid
    exact mergeCandidates_best _ e hm (q.1, m, q.2 m)
      (recallCandidates_intro db queries _ minScore q hq m hmem) hid
  · unfold recallContext DistinctIds
    refine List.Pairwise.sublist (List.take_sublist _ _) ?_
    refine ((List.perm_insertionSort recallDesc _).pairwise_iff
      (fun h => h.symm)).mpr ?_
    exact mergeCandidates_distinct _
  · unfold recallContext
    refine List.Pairwise.sublist (List.take_sublist _ _) ?_
    exact List.sorted_insertionSort recallDesc _

/-- Concrete instantiation of `c5_recall_merge_dedup`, the spec's dedup
scenario in integers: two sub-queries retrieve the same memory with hybrid
scores 4 and 7; the merged recall output contains it exactly once, with
score 7 and the second query recorded as the matched query, and the score 4
observed by the first query is dominated. -/
theorem c5_recall_merge_dedup_witness :
    recallContext [mem3a] [("q1", fun _ => (4 : ℚ)), ("q2", fun _ => (7 : ℚ))]
        10 0 = [⟨mem3a, 7, "q2"⟩]
      ∧ (4 : ℚ) ≤ (⟨mem3a, (7 : ℚ), "q2"⟩ : RecallEntry).score
      ∧ DistinctIds (recallContext [mem3a]
          [("q1", fun _ => (4 : ℚ)), ("q2", fun _ => (7 : ℚ))] 10 0)
      ∧ (recallContext [mem3a]
          [("q1", fun _ => (4 : ℚ)), ("q2", fun _ => (7 : ℚ))]
          10 0).Sorted recallDesc := by
  have he : (⟨mem3a, 7, "q2"⟩ : RecallEntry) ∈ recallContext [mem3a]
      [("q1", fun _ => (4 : ℚ)), ("q2", fun _ => (7 : ℚ))] 10 0 := by decide
  have h := c5_recall_merge_dedup [mem3a]
    [("q1", fun _ => (4 : ℚ)), ("q2", fun _ => (7 : ℚ))] 10 0
    ⟨mem3a, 7, "q2"⟩ he
  refine ⟨by decide, ?_, h.2.2.1, h.2.2.2.2⟩
  exact h.2.1 ("q1", fun _ => (4 : ℚ)) (List.mem_cons_self _ _) mem3a
    (by decide) rfl

/-! ## Importance lifecycle (db/queries.js `reinforce` / `decay`) -/

/-- Floor below which `MemoryQueries.decay` never lets importance fall, the
`0.01` of `GREATEST(importance * $2, 0.01)`. -/
def importanceFloor : ℚ := 1/100

/-- Embedding of the importance update of `MemoryQueries.reinforce`
(db/queries.js): `LEAST(importance + $2, 1.0)`. -/
def reinforceImportance (importance boost : ℚ) : ℚ :=
  min (importance + boost) 1

/-- Embedding of the importance update of `MemoryQueries.decay`
(db/queries.js): `GREATEST(importance * $2, 0.01)`. -/
def decayImportance (importance decayFactor : ℚ) : ℚ :=
  max (importance * decayFactor) importanceFloor

/-- One lifecycle call mutating importance: a reinforce with its boost or a
decay with its factor. -/
inductive LifecycleOp
  | reinforce (boost : ℚ)
  | decay (decayFactor : ℚ)

/-- Effect of one lifecycle call on the stored importance. -/
def applyLifecycleOp (importance : ℚ) : LifecycleOp → ℚ
  | .reinforce b => reinforceImportance importance b
  | .decay f => decayImportance importance f

/-- Effect of a sequence of lifecycle calls, applied in order. -/
def applyLifecycleOps (importance : ℚ) (ops : List LifecycleOp) : ℚ :=
  ops.foldl applyLifecycleOp importance

/-- Parameter ranges advertised by the tool schemas: the reinforce boost is
non-negative (tools/reinforce.js, schema minimum 0) and the decay factor
lies in `[0, 1]` (tools/forget.js schema). -/
def ValidLifecycleOp : LifecycleOp → Prop
  | .reinforce b => 0 ≤ b
  | .decay f => 0 ≤ f ∧ f ≤ 1

/-- One valid lifecycle call keeps importance within
`[importanceFloor, 1]`. -/
theorem applyLifecycleOp_bounds (imp : ℚ) (op : LifecycleOp)
    (hop : ValidLifecycleOp op) (h0 : importanceFloor ≤ imp) (h1 : imp ≤ 1) :
    importanceFloor ≤ applyLifecycleOp imp op
      ∧ applyLifecycleOp imp op ≤ 1 := by
  have hfloor1 : importanceFloor ≤ (1 : ℚ) := by
    unfold importanceFloor; norm_num
  cases op with
  | reinforce b =>
      have hb : 0 ≤ b := hop
      unfold applyLifecycleOp reinforceImportance
      constructor
      · exact le_min (by linarith) hfloor1
      · exact min_le_right _ _
  | decay f =>
      obtain ⟨hf0, hf1⟩ := hop
      unfold applyLifecycleOp decayImportance
      constructor
      · exact le_max_right _ _
      · refine max_le ?_ hfloor1
        have himp0 : (0 : ℚ) ≤ imp := le_trans (by unfold importanceFloor; norm_num) h0
        calc imp * f ≤ imp * 1 := by
              exact mul_le_mul_of_nonneg_left hf1 himp0
          _ = imp := mul_one imp
          _ ≤ 1 := h1

/-- C6: reinforce sets importance to `min (importance + boost) 1` and decay
sets it to `max (importance * decayFactor) 0.01`; starting inside
`[0.01, 1]`, any sequence of such calls with boosts `≥ 0` and decay factors
in `[0, 1]` keeps importance within `[0.01, 1]`. -/
theorem c6_importance_boundedness (imp : ℚ) (ops : List LifecycleOp)
    (h0 : importanceFloor ≤ imp) (h1 : imp ≤ 1)
    (hops : ∀ op ∈ ops, ValidLifecycleOp op) :
    (∀ i b : ℚ, reinforceImportance i b = min (i + b) 1)
      ∧ (∀ i f : ℚ, decayImportance i f = max (i * f) (1/100))
      ∧ importanceFloor ≤ applyLifecycleOps imp ops
      ∧ applyLifecycleOps imp ops ≤ 1 := by
  refine ⟨fun i b => rfl, fun i f => rfl, ?_⟩
  induction ops generalizing imp with
  | nil => exact ⟨h0, h1⟩
  | cons op ops ih =>
      have hop := hops op (List.mem_cons_self op ops)
      obtain ⟨hs0, hs1⟩ := applyLifecycleOp_bounds imp op hop h0 h1
      exact ih (applyLifecycleOp imp op) hs0 hs1
        (fun o ho => hops o (List.mem_cons_of_mem op ho))

/-- Concrete instantiation of `c6_importance_boundedness`: starting at
importance 1, a decay with factor 0 followed by a reinforce with boost 1
stays within the `[0.01, 1]` band (the decay lands exactly on the floor). -/
theorem c6_importance_boundedness_witness :
    importanceFloor ≤ (1 : ℚ) ∧ (1 : ℚ) ≤ 1
      ∧ (importanceFloor ≤ applyLifecycleOps 1
            [LifecycleOp.decay 0, LifecycleOp.reinforce 1]
          ∧ applyLifecycleOps 1
            [LifecycleOp.decay 0, LifecycleOp.reinforce 1] ≤ 1) := by
  have hf : importanceFloor ≤ (1 : ℚ) := by unfold importanceFloor; norm_num
  have hops : ∀ op ∈ [LifecycleOp.decay (0 : ℚ), LifecycleOp.reinforce 1],
      ValidLifecycleOp op := by
    intro op hop
    rcases List.mem_cons.mp hop with h | h
    · subst h; exact ⟨le_refl 0, by norm_num⟩
    · rw [List.mem_singleton.mp h]; exact (by norm_num : (0:ℚ) ≤ 1)
  exact ⟨hf, le_refl 1,
    (c6_importance_boundedness 1 [LifecycleOp.decay 0, LifecycleOp.reinforce 1]
      hf (le_refl 1) hops).2.2⟩

/-! ## Batched access logging (db/queries.js `batchUpdateAccess`) -/

/-- Embedding of the placeholder indices referenced by the VALUES clause of
`MemoryQueries.batchUpdateAccess` (db/queries.js): row `i` of `n` is
`($(i*2+1), 'search', $(ids.length*2+1), NULL)` — the memory-id placeholder
`i*2+1` and the query-text placeholder `n*2+1`. -/
def batchUpdateAccessPlaceholders (n : ℕ) : List ℕ :=
  (List.range n).flatMap (fun i => [i * 2 + 1, n * 2 + 1])

/-- Embedding of the parameter list supplied with the insert,
`[...ids, queryText]`: `n + 1` parameters for `n` ids. -/
def batchUpdateAccessParamCount (n : ℕ) : ℕ := n + 1

/-- A parameterized statement is executable only when every placeholder it
references lies within the supplied parameter count. -/
def batchUpdateAccessParamsOk (n : ℕ) : Bool :=
  (batchUpdateAccessPlaceholders n).all
    (fun p => decide (p ≤ batchUpdateAccessParamCount n))

/-- C7 (code defect): for every non-empty id batch the insert built by
`batchUpdateAccess` references the query-text placeholder `n*2+1` while only
`n+1` parameters are supplied, so the statement can never execute; the
`.catch` in the `recall_context` handler swallows the failure, hence no
AccessEvent is recorded although the response is unaffected. -/
theorem c7_batch_access_placeholder_mismatch (n : ℕ) (h : 1 ≤ n) :
    n * 2 + 1 ∈ batchUpdateAccessPlaceholders n
      ∧ batchUpdateAccessParamCount n < n * 2 + 1
      ∧ batchUpdateAccessParamsOk n = false := by
  have hmem : n * 2 + 1 ∈ batchUpdateAccessPlaceholders n := by
    unfold batchUpdateAccessPlaceholders
    refine List.mem_flatMap.mpr ⟨0, List.mem_range.mpr h, ?_⟩
    simp
  refine ⟨hmem, by unfold batchUpdateAccessParamCount; omega, ?_⟩
  rw [Bool.eq_false_iff]
  intro habs
  have := List.all_eq_true.mp habs _ hmem
  have hle : n * 2 + 1 ≤ batchUpdateAccessParamCount n :=
    of_decide_eq_true this
  unfold batchUpdateAccessParamCount at hle
  omega

/-- Concrete instantiation of `c7_batch_access_placeholder_mismatch` at a
single-id batch: the statement references `$3` but only 2 parameters are
supplied. -/
theorem c7_batch_access_placeholder_mismatch_witness :
    (1 : ℕ) ≤ 1
      ∧ (1 * 2 + 1 ∈ batchUpdateAccessPlaceholders 1
          ∧ batchUpdateAccessParamCount 1 < 1 * 2 + 1
          ∧ batchUpdateAccessParamsOk 1 = false) :=
  ⟨le_refl 1, c7_batch_access_placeholder_mismatch 1 (le_refl 1)⟩

/-! ## Content sanitization and record creation
(utils/security.js `sanitizeContent`, embeddings/generator.js
`normalizeEmbeddingDimension`, db/queries.js `MemoryQueries.create`) -/

/-- Characters stripped by `sanitizeContent` (utils/security.js), the regex
`[\x00-\x08\x0B\x0C\x0E-\x1F\x7F]`: null bytes and control characters other
than tab, newline and carriage return. -/
def isStrippedControlChar (c : Char) : Bool :=
  (c.toNat ≤ 0x08) || c.toNat == 0x0B || c.toNat == 0x0C
    || (0x0E ≤ c.toNat && c.toNat ≤ 0x1F) || c.toNat == 0x7F

/-- Whitespace removed by JavaScript `String.prototype.trim`. -/
def isJsWhitespace (c : Char) : Bool :=
  c == ' ' || c == '\t' || c == '\n' || c == '\x0B' || c == '\x0C'
    || c == '\r' || c == '\xA0' || c == '\uFEFF'

/-- JavaScript `content.trim()` over the character sequence: drop leading
and trailing whitespace. -/
def trimChars (l : List Char) : List Char :=
  ((l.dropWhile isJsWhitespace).reverse.dropWhile isJsWhitespace).reverse

/-- UTF-8 byte length of the character sequence
(`Buffer.byteLength(trimmed, 'utf8')`). -/
def utf8Length (l : List Char) : ℕ :=
  l.foldl (fun n c => n + c.utf8Size) 0

/-- Maximum content size accepted by `sanitizeContent` (10 KiB). -/
def maxContentSize : ℕ := 10 * 1024

/-- Embedding of `sanitizeContent` (utils/security.js): trim, reject the
empty result, reject content over `maxBytes` UTF-8 bytes, then strip the
control characters. -/
def sanitizeContent (content : List Char)
    (maxBytes : ℕ := maxContentSize) : Except String (List Char) :=
  let trimmed := trimChars content
  if trimmed.isEmpty then Except.error "Content cannot be empty"
  else if maxBytes < utf8Length trimmed then
    Except.error "Content exceeds maximum size"
  else Except.ok (trimmed.filter (fun c => !isStrippedControlChar c))

/-- Embedding of `normalizeEmbeddingDimension` (embeddings/generator.js): a
vector already of the configured dimension is returned unchanged, a longer
one is truncated, a shorter one is zero-padded; no dimension is ever
rejected. -/
def normalizeEmbeddingDimension (dim : ℕ) (embedding : List ℚ) : List ℚ :=
  if embedding.length = dim then embedding
  else if dim < embedding.length then embedding.take dim
  else embedding ++ List.replicate (dim - embedding.length) 0

/-- The normalized vector always has the configured dimension. -/
theorem normalizeEmbeddingDimension_length (dim : ℕ) (embedding : List ℚ) :
    (normalizeEmbeddingDimension dim embedding).length = dim := by
  unfold normalizeEmbeddingDimension
  split_ifs with h1 h2
  · exact h1
  · simpa using Nat.min_eq_left (le_of_lt h2)
  · simp only [List.length_append, List.length_replicate]
    omega

/-- Row produced by `MemoryQueries.create`, reduced to the defaulted
fields. -/
structure StoredMemory where
  content : List Char
  embedding : List ℚ
  tags : List String
  importance : ℚ
deriving DecidableEq

/-- Embedding of the defaulting of `MemoryQueries.create` (db/queries.js):
`tags || []` and `importance ?? config.defaultImportance`; the row id is a
fresh uuid assigned by the database column default. -/
def createMemory (defaultImportance : ℚ) (content : List Char)
    (embedding : List ℚ) (tags : Option (List String))
    (importance : Option ℚ) : StoredMemory :=
  { content := content, embedding := embedding,
    tags := tags.getD [], importance := importance.getD defaultImportance }

/-- Embedding of the `store_memory` creation path relevant to claim C8
(tools/store_memory.js → utils/security.js → embeddings/generator.js →
db/queries.js): the content is sanitized, the raw provider vector is
dimension-normalized, and the record is created with its defaults; a
sanitize failure aborts before anything is persisted. -/
def storeMemory (dim : ℕ) (defaultImportance : ℚ) (content : List Char)
    (rawEmbedding : List ℚ) (tags : Option (List String))
    (importance : Option ℚ) : Except String StoredMemory :=
  match sanitizeContent content with
  | Except.error e => Except.error e
  | Except.ok c =>
      Except.ok (createMemory defaultImportance c
        (normalizeEmbeddingDimension dim rawEmbedding) tags importance)

/-- C8 counterexample: a raw embedding of dimension 1 against configured
dimension 768 is not rejected with a ValidationError — it is zero-padded by
`normalizeEmbeddingDimension` and the record is persisted. -/
theorem c8_dimension_mismatch_not_rejected_counterexample :
    ([(1 : ℚ)].length ≠ 768)
      ∧ storeMemory 768 (1/2) ("hello".toList) [1] none none
          = Except.ok (createMemory (1/2) ("hello".toList)
              (normalizeEmbeddingDimension 768 [1]) none none)
      ∧ (normalizeEmbeddingDimension 768 [1]).length = 768 :=
  ⟨by decide, rfl, normalizeEmbeddingDimension_length 768 [1]⟩

/-- C8 (amended): creation fails — persisting nothing — when the content is
empty after trimming; a dimension mismatch of the embedding is silently
normalized (truncated or zero-padded) to the configured dimension rather
than rejected; a successful creation applies the defaults: importance is the
configured default when absent and tags default to `[]`. -/
theorem c8_create_validation (dim : ℕ) (defI : ℚ) (content : List Char)
    (raw : List ℚ) (tags : Option (List String)) (importance : Option ℚ) :
    ((trimChars content).isEmpty = true →
        storeMemory dim defI content raw tags importance
          = Except.error "Content cannot be empty")
      ∧ (∀ r, storeMemory dim defI content raw tags importance
            = Except.ok r →
          r.embedding = normalizeEmbeddingDimension dim raw
            ∧ r.embedding.length = dim
            ∧ r.tags = tags.getD []
            ∧ r.importance = importance.getD defI) := by
  constructor
  · intro h
    unfold storeMemory sanitizeContent
    rw [if_pos h]
  · intro r hr
    unfold storeMemory at hr
    cases hs : sanitizeContent content with
    | error e => rw [hs] at hr; cases hr
    | ok c =>
        rw [hs] at hr
        have hr' : createMemory defI c
            (normalizeEmbeddingDimension dim raw) tags importance = r :=
          Except.ok.inj hr
        subst hr'
        exact ⟨rfl, normalizeEmbeddingDimension_length dim raw, rfl, rfl⟩

/-- Concrete instantiation of `c8_create_validation`: whitespace-only
content is rejected with the validation error, and a successful creation
normalizes the embedding length and applies the defaults. -/
theorem c8_create_validation_witness :
    (trimChars (" ".toList)).isEmpty = true
      ∧ storeMemory 3 1 (" ".toList) [1] none none
          = Except.error "Content cannot be empty"
      ∧ (createMemory 1 ("hi".toList)
            (normalizeEmbeddingDimension 3 [1]) none none).embedding.length
          = 3
      ∧ (createMemory 1 ("hi".toList)
            (normalizeEmbeddingDimension 3 [1]) none none).tags = []
      ∧ (createMemory 1 ("hi".toList)
            (normalizeEmbeddingDimension 3 [1]) none none).importance = 1 := by
  have h1 : (trimChars (" ".toList)).isEmpty = true := by decide
  have hr : storeMemory 3 1 ("hi".toList) [1] none none
      = Except.ok (createMemory 1 ("hi".toList)
          (normalizeEmbeddingDimension 3 [1]) none none) := rfl
  have h2 := (c8_create_validation 3 1 ("hi".toList) [1] none none).2 _ hr
  exact ⟨h1, (c8_create_validation 3 1 (" ".toList) [1] none none).1 h1,
    h2.2.1, h2.2.2.1, h2.2.2.2⟩

/-! ## Limit validation (utils/security.js `validateLimit` and the tool
handlers) -/

/-- Embedding of `validateLimit` (utils/security.js).  The JavaScript input
is either absent (`undefined`/`null`), a value on which `parseInt` yields
`NaN`, or a value parsing to an integer; the three cases are `none`,
`some none` and `some (some n)`.  Absent yields the default 10; `NaN` or a
value below 1 is rejected; otherwise the value is clamped to `maxLimit`
with `Math.min`. -/
def validateLimit (limit : Option (Option ℤ)) (maxLimit : ℤ) :
    Except String ℤ :=
  match limit with
  | none => Except.ok 10
  | some none => Except.error "Limit must be a positive integer"
  | some (some n) =>
      if n < 1 then Except.error "Limit must be a positive integer"
      else Except.ok (min n maxLimit)

/-- Embedding of the `search_memory` handler's limit path
(tools/search_memory.js): `validateLimit(params.limit, 100)` runs before the
embedding service and the store are consulted; a failure returns the error
with no search executed. -/
def searchMemoryHandler (db : List Memory) (score : Memory → ℚ)
    (limitParam : Option (Option ℤ)) (minScore : ℚ)
    (tf : Option (List String)) (sf : Option String) :
    Except String (List Memory) :=
  match validateLimit limitParam 100 with
  | Except.error e => Except.error e
  | Except.ok l => Except.ok (search db score l.toNat minScore tf sf)

/-- Embedding of the `recall_context` handler's limit path
(tools/recall_context.js): `validateLimit(params.limit, 50)`. -/
def recallContextHandler (db : List Memory)
    (queries : List (String × (Memory → ℚ)))
    (limitParam : Option (Option ℤ)) (minScore : ℚ) :
    Except String (List RecallEntry) :=
  match validateLimit limitParam 50 with
  | Except.error e => Except.error e
  | Except.ok l => Except.ok (recallContext db queries l.toNat minScore)

/-- Embedding of the `get_related` handler's limit path
(tools/get_related.js): `validateLimit(params.limit, 50)`. -/
def getRelatedHandler (db : List Memory) (rels : List Relation)
    (dist : Memory → ℚ) (memoryId : ℕ) (limitParam : Option (Option ℤ))
    (includeExplicit includeSimilar : Bool) :
    Except String (Option (List RelatedEntry)) :=
  match validateLimit limitParam 50 with
  | Except.error e => Except.error e
  | Except.ok l =>
      Except.ok (getRelatedTool db rels dist memoryId l.toNat
        includeExplicit includeSimilar)

/-- C10: an absent limit defaults to 10; a limit at or above the tool's
maximum is clamped to that maximum (100 for search_memory, 50 for
recall_context and get_related) rather than rejected; a limit below 1 or
one that does not parse as an integer is rejected with a validation error;
and in each of the three handlers a validation failure is returned before
any store interaction — the handler result is the error irrespective of the
store contents. -/
theorem c10_limit_validation :
    (∀ M : ℤ, validateLimit none M = Except.ok 10)
      ∧ (∀ n M : ℤ, 1 ≤ n → M ≤ n →
          validateLimit (some (some n)) M = Except.ok M)
      ∧ (∀ n M : ℤ, n < 1 → validateLimit (some (some n)) M
          = Except.error "Limit must be a positive integer")
      ∧ (∀ M : ℤ, validateLimit (some none) M
          = Except.error "Limit must be a positive integer")
      ∧ (∀ (db : List Memory) (score : Memory → ℚ)
            (lp : Option (Option ℤ)) (ms : ℚ) (tf : Option (List String))
            (sf : Option String) (e : String),
          validateLimit lp 100 = Except.error e →
            searchMemoryHandler db score lp ms tf sf = Except.error e)
      ∧ (∀ (db : List Memory) (queries : List (String × (Memory → ℚ)))
            (lp : Option (Option ℤ)) (ms : ℚ) (e : String),
          validateLimit lp 50 = Except.error e →
            recallContextHandler db queries lp ms = Except.error e)
      ∧ (∀ (db : List Memory) (rels : List Relation) (dist : Memory → ℚ)
            (i : ℕ) (lp : Option (Option ℤ)) (b₁ b₂ : Bool) (e : String),
          validateLimit lp 50 = Except.error e →
            getRelatedHandler db rels dist i lp b₁ b₂ = Except.error e) := by
  refine ⟨fun M => rfl, ?_, ?_, fun M => rfl, ?_, ?_, ?_⟩
  · intro n M h1 hM
    show (if n < 1 then Except.error "Limit must be a positive integer"
        else Except.ok (min n M)) = Except.ok M
    rw [if_neg (by omega), min_eq_right hM]
  · intro n M h
    show (if n < 1 then Except.error "Limit must be a positive integer"
        else Except.ok (min n M)) = Except.error "Limit must be a positive integer"
    rw [if_pos h]
  · intro db score lp ms tf sf e h
    unfold searchMemoryHandler
    rw [h]
  · intro db queries lp ms e h
    unfold recallContextHandler
    rw [h]
  · intro db rels dist i lp b₁ b₂ e h
    unfold getRelatedHandler
    rw [h]

/-- Concrete instantiation of `c10_limit_validation`: absent limit gives 10,
limit 200 is clamped to 100 for search_memory and to 50 for recall_context,
limit 0 and a non-parsing limit are rejected, and a handler receiving the
rejected limit returns the error without consulting the store. -/
theorem c10_limit_validation_witness :
    validateLimit none 100 = Except.ok 10
      ∧ validateLimit (some (some 200)) 100 = Except.ok 100
      ∧ validateLimit (some (some 200)) 50 = Except.ok 50
      ∧ validateLimit (some (some 0)) 100
          = Except.error "Limit must be a positive integer"
      ∧ validateLimit (some none) 50
          = Except.error "Limit must be a positive integer"
      ∧ searchMemoryHandler [mem3a] score3 (some (some 0)) 0 none none
          = Except.error "Limit must be a positive integer" := by
  refine ⟨(c10_limit_validation).1 100,
    (c10_limit_validation).2.1 200 100 (by norm_num) (by norm_num),
    (c10_limit_validation).2.1 200 50 (by norm_num) (by norm_num),
    (c10_limit_validation).2.2.1 0 100 (by norm_num),
    (c10_limit_validation).2.2.2.1 50,
    (c10_limit_validation).2.2.2.2.1 [mem3a] score3 (some (some 0)) 0
      none none _ ((c10_limit_validation).2.2.1 0 100 (by norm_num))⟩

end SemanticMemory
